import Mathlib

/-!
Verification of the doc-ia document ingestion and retrieval pipeline.

The definitions below are shallow embeddings of the Python sources
`document_processor.py` and `rag_system.py`.  Strings are Lean `String`
(Python `str`), dicts are association lists, and the cl100k tokenizer
(the external `tiktoken` library) is an abstract parameter
`tok : String → Nat`.  Fallible external calls (sentence-transformers
encode, chromadb query) are modelled with `Except`.  All definitions
come first, followed by the theorems.
-/

/-! ## Chunk data model (document_processor.py) -/

/-- A chunk produced by `DocumentProcessor`.  The Python dict keys are
`text/page/section/tokens`, plus `type` on slide chunks only
(`sect` stands for the dict key `section`, which is a Lean keyword;
`ctype` for the key `type`, absent = key not present). -/
structure Chunk where
  text : String
  page : Nat
  sect : String
  ctype : Option String := none
  tokens : Nat
  deriving Repr, DecidableEq

/-- Python `str.strip()`: drop leading and trailing whitespace. -/
def pyStrip (s : String) : String :=
  String.mk (((s.data.dropWhile Char.isWhitespace).reverse.dropWhile
    Char.isWhitespace).reverse)

/-- Python slicing `s[:n]` on code points. -/
def pyTake (s : String) (n : Nat) : String := String.mk (s.data.take n)

/-- Python `s.endswith(t)`. -/
def pyEndsWith (s t : String) : Bool := t.data.isSuffixOf s.data

/-- Python `text.split('\n\n')`: split on each non-overlapping occurrence
of the two-newline separator, keeping empty pieces. -/
def splitOnNN : List Char → List (List Char)
  | [] => [[]]
  | '\n' :: '\n' :: rest => [] :: splitOnNN rest
  | c :: rest =>
    match splitOnNN rest with
    | [] => [[c]]
    | p :: ps => (c :: p) :: ps

/-- Embeds `[p.strip() for p in text.split('\n\n') if p.strip()]`
(document_processor.py line 178). -/
def paragraphsOf (text : String) : List String :=
  ((splitOnNN text.data).map (fun cs => pyStrip (String.mk cs))).filter
    (fun p => !(p == ""))

/-- Loop state of `_split_by_sections`: accumulated `chunks`,
`current_chunk` (`cur`), `current_section` (`curSect`). -/
structure SplitState where
  chunks : List Chunk
  cur : String
  curSect : String
  deriving Repr, DecidableEq

/-- Embeds `test_chunk = current_chunk + "\n\n" + para if current_chunk else para`
(line 190). -/
def testChunk (cur para : String) : String :=
  if cur == "" then para else cur ++ "\n\n" ++ para

/-- One iteration of the paragraph loop of `_split_by_sections`
(lines 188–209): append the paragraph when the joined text stays under
600 tokens, otherwise flush the current chunk (when non-empty), restart
the buffer from the paragraph, and update the section label when the
paragraph is short and does not end in a period. -/
def splitStep (tok : String → Nat) (pageNum : Nat) (st : SplitState) (para : String) :
    SplitState :=
  if tok (testChunk st.cur para) < 600 then
    { st with cur := testChunk st.cur para }
  else
    ⟨(if st.cur == "" then st.chunks
      else st.chunks ++ [⟨pyStrip st.cur, pageNum, st.curSect, none, tok st.cur⟩]),
     para,
     (if para.length < 100 && !(pyEndsWith para ".") then pyTake para 100 else st.curSect)⟩

/-- Final flush of `_split_by_sections` (lines 211–218). -/
def finishSplit (tok : String → Nat) (pageNum : Nat) (st : SplitState) : List Chunk :=
  if st.cur == "" then st.chunks
  else st.chunks ++ [⟨pyStrip st.cur, pageNum, st.curSect, none, tok st.cur⟩]

/-- Initial `current_section` (lines 182–186): the page label, replaced by
`paragraphs[0][:100]` when the first paragraph is shorter than 100 chars. -/
def initialSection (pageNum : Nat) (paragraphs : List String) : String :=
  match paragraphs with
  | [] => "Página " ++ toString pageNum
  | p :: _ => if p.length < 100 then pyTake p 100 else "Página " ++ toString pageNum

/-- Embeds `DocumentProcessor._split_by_sections(text, page_num)`
(document_processor.py lines 163–220), with the tokenizer
`count_tokens` abstracted as `tok`. -/
def splitBySections (tok : String → Nat) (text : String) (pageNum : Nat) : List Chunk :=
  if tok text < 600 then
    [⟨text, pageNum, "Página " ++ toString pageNum, none, tok text⟩]
  else
    finishSplit tok pageNum
      ((paragraphsOf text).foldl (splitStep tok pageNum)
        ⟨[], "", initialSection pageNum (paragraphsOf text)⟩)

/-- A chunk respects the budget: its recorded token count is under 600, or
it is a single paragraph of `P` (stored trimmed, with its own count). -/
def BudgetOk (tok : String → Nat) (P : List String) (c : Chunk) : Prop :=
  c.tokens < 600 ∨ ∃ q ∈ P, c.text = pyStrip q ∧ c.tokens = tok q

/-! ## Retrieval service data model (rag_system.py)

The chromadb collection and the sentence-transformers model are external
libraries; they are modelled by their contracts.  A stored record carries
the distance the store reports for the current query; metadata dicts are
association lists. -/

/-- One record as the store returns it for a query: id, document text,
cosine distance, metadata dict. -/
structure StoredRec where
  id : String
  text : String
  dist : ℚ
  meta : List (String × String)
  deriving Repr, DecidableEq

/-- One element of the list `search` returns (rag_system.py lines 152–160). -/
structure SearchResult where
  chunk_id : String
  text : String
  distance : ℚ
  meta : List (String × String)
  relevance_score : Nat
  deriving Repr, DecidableEq

/-- Embeds `DociaRAG._distance_to_score` (rag_system.py lines 164–178). -/
def distanceToScore (distance : ℚ) : Nat :=
  if distance < 0.4 then 10
  else if distance < 0.6 then 8
  else if distance < 0.8 then 6
  else if distance < 1.0 then 4
  else 2

/-- Python dict assignment `d[k] = v` on an association-list dict:
overwrite the value when the key is present, append otherwise. -/
def dictSet {β : Type} (d : List (String × β)) (k : String) (v : β) :
    List (String × β) :=
  if d.any (fun kv => kv.1 == k) then
    d.map (fun kv => if kv.1 == k then (k, v) else kv)
  else d ++ [(k, v)]

/-- Python truthiness of an optional string (`if user_id:`):
false for `None` and for the empty string. -/
def truthyStr : Option String → Bool
  | none => false
  | some s => !(s == "")

/-- Filter construction of `search` (rag_system.py lines 132–137):
`where_filter = filters.copy() if filters else {}` then
`where_filter["uploaded_by"] = user_id` when `user_id` is truthy. -/
def buildWhere (filters : Option (List (String × String))) (userId : Option String) :
    List (String × String) :=
  (if truthyStr userId then
    dictSet (match filters with | some f => f | none => []) "uploaded_by" (userId.getD "")
  else (match filters with | some f => f | none => []))

/-- The `where` argument passed to `collection.query`
(`where_filter if where_filter else None`, line 143). -/
def whereArg (filters : Option (List (String × String))) (userId : Option String) :
    Option (List (String × String)) :=
  if (buildWhere filters userId).isEmpty then none else some (buildWhere filters userId)

/-- Result formatting loop of `search` (rag_system.py lines 150–160). -/
def formatResults (rs : List StoredRec) : List SearchResult :=
  rs.map fun r => ⟨r.id, r.text, r.dist, r.meta, distanceToScore r.dist⟩

/-- Embeds `DociaRAG.search` (rag_system.py lines 110–162).  `embed` models
`self.embedding_model.encode(query)` (line 130, outside the try block) and
`collQuery` models `self.collection.query(...)` (line 140, inside the try
block whose except-branch returns `[]`). -/
def search (embed : String → Except String (List ℚ))
    (collQuery : List ℚ → Nat → Option (List (String × String)) →
      Except String (List StoredRec))
    (query : String) (nResults : Nat)
    (filters : Option (List (String × String))) (userId : Option String) :
    Except String (List SearchResult) :=
  match embed query with
  | .error e => .error e
  | .ok queryEmbedding =>
    match collQuery queryEmbedding nResults (whereArg filters userId) with
    | .error _ => .ok []
    | .ok results => .ok (formatResults results)

/-- A record satisfies a where-filter: every key-value constraint equals the
record's stored metadata (the AND-equality filter contract of the store). -/
def matchesWhere (w : List (String × String)) (r : StoredRec) : Bool :=
  w.all fun kv => r.meta.lookup kv.1 == some kv.2

/-- A small concrete store honouring the AND-equality filter contract,
over a two-record collection with different `uploaded_by` owners. -/
def collW : List StoredRec :=
  [⟨"d_chunk_0000", "alpha", 0.3, [("uploaded_by", "alice"), ("specialty", "cardiologia")]⟩,
   ⟨"e_chunk_0000", "beta", 0.5, [("uploaded_by", "bob"), ("specialty", "cardiologia")]⟩]

def storeW : List ℚ → Nat → Option (List (String × String)) →
    Except String (List StoredRec) :=
  fun _ _ ow => Except.ok (match ow with
    | some w => collW.filter (fun r => matchesWhere w r)
    | none => collW)

/-! ## C6: running section label (corrected)

The claim says every short (<100 chars) paragraph not ending in a period
overwrites the running label wherever it occurs.  In the code the label is
only updated in the flush branch (line 207-209 runs inside the `else`), so
a short heading paragraph that still fits in the current buffer does not
touch the label. -/

/-- The running label as the claim describes it: start from the page label
or a short first paragraph, then let every short non-period paragraph
overwrite it, wherever it occurs.  This follows the claim wording, not the
code. -/
def claimedRunningLabel (pageNum : Nat) (paragraphs : List String) : String :=
  paragraphs.foldl
    (fun l q => if q.length < 100 && !(pyEndsWith q ".") then pyTake q 100 else l)
    (initialSection pageNum paragraphs)

def ex6para1 : String := "aaaa."

def ex6para3 : String := String.mk (List.replicate 50 'b') ++ "."

def ex6text : String := ex6para1 ++ "\n\n" ++ "Heading" ++ "\n\n" ++ ex6para3

/-- Tokenizer used in the C6 example: ten tokens per character, so the
600-token budget corresponds to 60 characters. -/
def tok10 (s : String) : Nat := 10 * s.length

/-- Label provenance: a section string is the page label or the 100-char
truncation of some short paragraph of `P`. -/
def SectOk (pageNum : Nat) (P : List String) (s : String) : Prop :=
  s = "Página " ++ toString pageNum ∨ ∃ q ∈ P, q.length < 100 ∧ s = pyTake q 100

/-! ## C7: add_document record construction

Decimal rendering used for `f"{i:04d}"` (zero-padded chunk index) and the
`str(...)` casts on metadata values.  Fuel-based structural recursion so
the definitions evaluate inside the kernel; `n` itself is always enough
fuel since the quotient shrinks every step. -/

def decDigits : Nat → Nat → List Char
  | 0, _ => []
  | _ + 1, 0 => []
  | fuel + 1, n + 1 => Nat.digitChar ((n + 1) % 10) :: decDigits fuel ((n + 1) / 10)

/-- Python `str(n)` for a natural number: its decimal numeral. -/
def natDecimal (n : Nat) : String :=
  if n = 0 then "0" else String.mk (decDigits n n).reverse

/-- Python `f"{i:04d}"`: decimal numeral left-padded with zeros to at
least four characters. -/
def fmt04 (i : Nat) : String :=
  if (natDecimal i).length < 4 then
    String.mk (List.replicate (4 - (natDecimal i).length) '0') ++ natDecimal i
  else natDecimal i

/-- Decimal decoding, most significant digit first; inverse of the
rendering above, also through left zero-padding. -/
def decodeDec (s : String) : Nat :=
  s.data.foldl (fun a c => 10 * a + (c.toNat - 48)) 0

/-- Python single-character `s.replace(a, b)`. -/
def pyReplaceChar (s : String) (a b : Char) : String :=
  String.mk (s.data.map (fun c => if c = a then b else c))

/-- Embeds `metadata['title'][:30].replace(' ', '_').replace('/', '_')`
(rag_system.py line 52). -/
def safeTitle (title : String) : String :=
  pyReplaceChar (pyReplaceChar (pyTake title 30) ' ' '_') '/' '_'

/-- Document metadata passed to `add_document` (`type` is spelled `dtype`
since the key name reads better unprimed; `none` models an absent key,
read with `.get(key, default)`). -/
structure DocMeta where
  title : String
  dtype : Option String := none
  specialty : Option String := none
  year : Option Nat := none
  deriving Repr, DecidableEq

/-- The denormalized per-chunk metadata dict built at rag_system.py
lines 66–77 (`sect`/`dtype` stand for the keys `section`/`type`). -/
structure RecMeta where
  doc_id : String
  title : String
  dtype : String
  specialty : String
  year : String
  page : String
  sect : String
  tokens : String
  upload_date : String
  uploaded_by : String
  deriving Repr, DecidableEq

/-- One indexed record as written to the store. -/
structure IndexedRecord where
  id : String
  text : String
  meta : RecMeta
  deriving Repr, DecidableEq

/-- The `doc_id` generation (rag_system.py lines 52–53); `nowStamp` models
`datetime.now().strftime('%Y%m%d_%H%M%S')`. -/
def mkDocId (md : DocMeta) (nowStamp : String) : String :=
  md.specialty.getD "general" ++ "_" ++ safeTitle md.title ++ "_" ++ nowStamp

/-- The record built for chunk `i` in the loop at rag_system.py
lines 61–79; `nowIso` models `datetime.now().isoformat()`. -/
def chunkRecord (docId : String) (md : DocMeta) (uploadedBy nowIso : String)
    (i : Nat) (c : Chunk) : IndexedRecord :=
  ⟨docId ++ "_chunk_" ++ fmt04 i, c.text,
   ⟨docId, md.title, md.dtype.getD "guideline", md.specialty.getD "cardiologia",
    natDecimal (md.year.getD 2024), natDecimal c.page, c.sect, natDecimal c.tokens,
    nowIso, uploadedBy⟩⟩

/-- Embeds `DociaRAG.add_document` (rag_system.py lines 37–108): the returned
`doc_id` and the full list of records prepared for the store. -/
def addDocument (chunks : List Chunk) (md : DocMeta) (uploadedBy : String)
    (nowStamp nowIso : String) : String × List IndexedRecord :=
  (mkDocId md nowStamp,
   chunks.enum.map (fun ic =>
     chunkRecord (mkDocId md nowStamp) md uploadedBy nowIso ic.1 ic.2))

/-- The batch slicing `for i in range(0, len(texts), 100)` of the store
write loop (rag_system.py lines 90–103). -/
def batches {α : Type} : List α → List (List α)
  | [] => []
  | x :: xs => (x :: xs).take 100 :: batches ((x :: xs).drop 100)
termination_by l => l.length
decreasing_by simp [List.length_drop]; omega

/-! ## C8: collection statistics (corrected) -/

/-- The dict returned by `get_collection_stats`; `by_user = none` models
the key being absent. -/
structure StatsResult where
  total_chunks : Nat
  unique_docs : Nat
  by_user : Option (List (String × Nat))
  deriving Repr, DecidableEq

/-- Python `m.get(k)` on a metadata dict. -/
def metaGet (m : List (String × String)) (k : String) : Option String := m.lookup k

/-- Embeds `self.collection.get()['metadatas']`. -/
def allMetadata (coll : List StoredRec) : List (List (String × String)) :=
  coll.map StoredRec.meta

/-- Embeds `[m for m in all_metadata if m.get('uploaded_by') == user_id]`
(rag_system.py line 201). -/
def userMetadata (coll : List StoredRec) (uid : String) :
    List (List (String × String)) :=
  (allMetadata coll).filter (fun m => metaGet m "uploaded_by" == some uid)

/-- Embeds `len(set(m.get('doc_id', 'unknown') for m in ms))`
(rag_system.py lines 202 and 210). -/
def uniqueDocsOf (ms : List (List (String × String))) : Nat :=
  ((ms.map (fun m => (metaGet m "doc_id").getD "unknown")).dedup).length

/-- The `by_user` counting loop (rag_system.py lines 213–216). -/
def byUserCounts (ms : List (List (String × String))) : List (String × Nat) :=
  ms.foldl (fun acc m =>
    dictSet acc ((metaGet m "uploaded_by").getD "sistema")
      ((acc.lookup ((metaGet m "uploaded_by").getD "sistema")).getD 0 + 1)) []

/-- Embeds `DociaRAG.get_collection_stats` (rag_system.py lines 180–230). -/
def getCollectionStats (coll : List StoredRec) (userId : Option String) :
    StatsResult :=
  if coll.length = 0 then ⟨0, 0, some []⟩
  else if truthyStr userId then
    ⟨(userMetadata coll (userId.getD "")).length,
     uniqueDocsOf (userMetadata coll (userId.getD "")), none⟩
  else
    ⟨coll.length, uniqueDocsOf (allMetadata coll),
     some (byUserCounts (allMetadata coll))⟩

/-! ## C9: PowerPoint slide extraction (corrected)

In python-pptx the title placeholder is one of the members of
`slide.shapes`, so the content loop at document_processor.py lines 119–121
collects the title shape's text again; the slide text therefore contains
the title twice, while the claim says the title is concatenated with all
OTHER shapes. -/

/-- A python-pptx shape: `text = none` models a shape without a `text`
attribute. -/
structure PShape where
  text : Option String
  deriving Repr, DecidableEq

/-- A python-pptx slide: the shape list and, when present, the index of
the title placeholder inside that same list. -/
structure PSlide where
  shapes : List PShape
  titleIdx : Option Nat
  deriving Repr, DecidableEq

/-- Python `sep.join(xs)`. -/
def pyJoin (sep : String) : List String → String
  | [] => ""
  | [x] => x
  | x :: y :: rest => x ++ sep ++ pyJoin sep (y :: rest)

/-- Collapse runs of spaces to a single space:
`re.sub(r' +', ' ', text)`. -/
def collapseSpaces : List Char → List Char
  | [] => []
  | [c] => [c]
  | c1 :: c2 :: rest =>
    if c1 = ' ' ∧ c2 = ' ' then collapseSpaces (c2 :: rest)
    else c1 :: collapseSpaces (c2 :: rest)

/-- Collapse runs of three or more newlines to exactly two:
`re.sub(r'\n\n+', '\n\n', text)`. -/
def collapseNewlines : List Char → List Char
  | [] => []
  | [c] => [c]
  | [c1, c2] => [c1, c2]
  | c1 :: c2 :: c3 :: rest =>
    if c1 = '\n' ∧ c2 = '\n' ∧ c3 = '\n' then collapseNewlines (c2 :: c3 :: rest)
    else c1 :: collapseNewlines (c2 :: c3 :: rest)

/-- Embeds `DocumentProcessor._clean_text` (document_processor.py lines 148–161). -/
def cleanText (text : String) : String :=
  pyStrip (String.mk (collapseNewlines (collapseSpaces text.data)))

/-- Embeds `slide.shapes.title.text` when a title placeholder exists, else `""`
(document_processor.py lines 113–115). -/
def slideTitleText (s : PSlide) : String :=
  match s.titleIdx.bind (fun i => s.shapes.get? i) with
  | some sh => sh.text.getD ""
  | none => ""

/-- The content loop (lines 118–121): text of every shape that has a
truthy `text` attribute — including the title placeholder itself. -/
def slideContent (s : PSlide) : List String :=
  s.shapes.filterMap (fun sh =>
    match sh.text with
    | some t => if t == "" then none else some t
    | none => none)

/-- Embeds `full_text = f"{title}\n\n" + "\n".join(content)` followed by
`_clean_text` (lines 124–125). -/
def slideFullText (s : PSlide) : String :=
  cleanText (slideTitleText s ++ "\n\n" ++ pyJoin "\n" (slideContent s))

/-- The chunk appended for a non-empty slide (lines 130–136). -/
def mkSlideChunk (tok : String → Nat) (n : Nat) (s : PSlide) : Chunk :=
  ⟨slideFullText s, n,
   (if slideTitleText s == "" then "Slide " ++ toString n else slideTitleText s),
   some "slide", tok (slideFullText s)⟩

/-- The slide loop of `extract_from_ppt` (lines 111–139), carrying the
1-based slide number. -/
def extractFromPptLoop (tok : String → Nat) : Nat → List PSlide → List Chunk
  | _, [] => []
  | n, s :: rest =>
    if pyStrip (slideFullText s) == "" then extractFromPptLoop tok (n + 1) rest
    else mkSlideChunk tok n s :: extractFromPptLoop tok (n + 1) rest

/-- Embeds `DocumentProcessor.extract_from_ppt` chunk extraction, slides numbered
from 1. -/
def extractFromPpt (tok : String → Nat) (slides : List PSlide) : List Chunk :=
  extractFromPptLoop tok 1 slides

/-- The slide text as the claim describes it: the title concatenated with
the text of all shapes OTHER than the title placeholder.  Follows the
claim wording, not the code. -/
def claimedSlideText (s : PSlide) : String :=
  cleanText (slideTitleText s ++ "\n\n" ++
    pyJoin "\n" (s.shapes.enum.filterMap (fun ish =>
      if s.titleIdx == some ish.1 then none
      else match ish.2.text with
        | some t => if t == "" then none else some t
        | none => none)))

def slide9 : PSlide := ⟨[⟨some "T"⟩, ⟨some "B"⟩], some 0⟩

/-! ## Generic fold invariant helper -/

theorem foldl_inv {α β : Type} (f : β → α → β) (l : List α) (Inv : β → Prop)
    (st : β) (hstep : ∀ s a, a ∈ l → Inv s → Inv (f s a)) (h0 : Inv st) :
    Inv (l.foldl f st) := by
  induction l generalizing st with
  | nil => exact h0
  | cons a t ih =>
    exact ih (f st a) (fun s b hb hs => hstep s b (List.mem_cons_of_mem _ hb) hs)
      (hstep st a (List.mem_cons_self _ _) h0)

/-! ## C1: chunk token budget -/

theorem splitStep_budget (tok : String → Nat) (p : Nat) (P : List String)
    (s : SplitState) (a : String) (ha : a ∈ P)
    (h1 : ∀ c ∈ s.chunks, BudgetOk tok P c)
    (h2 : s.cur = "" ∨ tok s.cur < 600 ∨ s.cur ∈ P) :
    (∀ c ∈ (splitStep tok p s a).chunks, BudgetOk tok P c) ∧
      ((splitStep tok p s a).cur = "" ∨ tok (splitStep tok p s a).cur < 600 ∨
        (splitStep tok p s a).cur ∈ P) := by
  unfold splitStep
  by_cases ht : tok (testChunk s.cur a) < 600
  · rw [if_pos ht]
    exact ⟨h1, Or.inr (Or.inl ht)⟩
  · rw [if_neg ht]
    refine ⟨?_, Or.inr (Or.inr ha)⟩
    by_cases hc : s.cur = ""
    · simpa [hc] using h1
    · have hcb : (s.cur == "") = false := by simpa using hc
      simp only [hcb, Bool.false_eq_true, if_false]
      intro c hmem
      rcases List.mem_append.1 hmem with h | h
      · exact h1 c h
      · have hceq : c = ⟨pyStrip s.cur, p, s.curSect, none, tok s.cur⟩ := by
          simpa using h
        subst hceq
        rcases h2 with he | hlt | hp
        · exact absurd he hc
        · exact Or.inl hlt
        · exact Or.inr ⟨s.cur, hp, rfl, rfl⟩

/-- C1: every chunk returned by `_split_by_sections` has `tokens` below the
600-token budget, or else it is a single blank-line-delimited paragraph of
the input (stored trimmed) whose own token count is the chunk's recorded
count — hence at or over the budget, it never holds more than one
paragraph. -/
theorem c1_chunk_token_budget (tok : String → Nat) (text : String) (p : Nat) :
    ∀ c ∈ splitBySections tok text p,
      c.tokens < 600 ∨
        ∃ q ∈ paragraphsOf text, c.text = pyStrip q ∧ c.tokens = tok q := by
  intro c hc
  unfold splitBySections at hc
  by_cases h : tok text < 600
  · rw [if_pos h] at hc
    have : c = ⟨text, p, "Página " ++ toString p, none, tok text⟩ := by simpa using hc
    subst this
    exact Or.inl h
  · rw [if_neg h] at hc
    have inv := foldl_inv (splitStep tok p) (paragraphsOf text)
      (fun st => (∀ c ∈ st.chunks, BudgetOk tok (paragraphsOf text) c) ∧
        (st.cur = "" ∨ tok st.cur < 600 ∨ st.cur ∈ paragraphsOf text))
      ⟨[], "", initialSection p (paragraphsOf text)⟩
      (fun s a ha hs => splitStep_budget tok p (paragraphsOf text) s a ha hs.1 hs.2)
      (by exact ⟨by simp, Or.inl rfl⟩)
    set final := (paragraphsOf text).foldl (splitStep tok p)
      ⟨[], "", initialSection p (paragraphsOf text)⟩ with hfinal
    unfold finishSplit at hc
    by_cases hcur : final.cur = ""
    · rw [if_pos (by simpa using hcur)] at hc
      exact inv.1 c hc
    · rw [if_neg (by simpa using hcur)] at hc
      rcases List.mem_append.1 hc with hmem | hmem
      · exact inv.1 c hmem
      · have hceq : c = ⟨pyStrip final.cur, p, final.curSect, none, tok final.cur⟩ := by
          simpa using hmem
        subst hceq
        rcases inv.2 with he | hlt | hp
        · exact absurd he hcur
        · exact Or.inl hlt
        · exact Or.inr ⟨final.cur, hp, rfl, rfl⟩

theorem c1_chunk_token_budget_witness :
    (⟨"hello", 3, "Página 3", none, 5⟩ : Chunk).tokens < 600 ∨
      ∃ q ∈ paragraphsOf "hello",
        (⟨"hello", 3, "Página 3", none, 5⟩ : Chunk).text = pyStrip q ∧
          (⟨"hello", 3, "Página 3", none, 5⟩ : Chunk).tokens = String.length q :=
  c1_chunk_token_budget String.length "hello" 3 _ (by decide)

/-! ## C5: single-chunk fast path -/

/-- C5: for input text under the 600-token budget, `_split_by_sections`
returns exactly one chunk whose text is the input unchanged, whose section
is the page label, and whose token count is the input's token count. -/
theorem c5_single_chunk (tok : String → Nat) (text : String) (p : Nat)
    (h : tok text < 600) :
    splitBySections tok text p =
      [⟨text, p, "Página " ++ toString p, none, tok text⟩] := by
  unfold splitBySections
  rw [if_pos h]

theorem c5_single_chunk_witness :
    splitBySections String.length "dos aspirinas" 7 =
      [⟨"dos aspirinas", 7, "Página 7", none, 13⟩] :=
  c5_single_chunk String.length "dos aspirinas" 7 (by decide)

/-! ## C2: distance-to-score step function and result ordering -/

theorem distanceToScore_antitone (d₁ d₂ : ℚ) (h : d₁ ≤ d₂) :
    distanceToScore d₂ ≤ distanceToScore d₁ := by
  unfold distanceToScore
  split_ifs <;> first | omega | linarith

/-- C2: `_distance_to_score` is exactly the claimed step function, its value
is always one of 10/8/6/4/2, it is monotonically non-increasing in the
distance, and whenever the store returns its reply in ascending-distance
order, the list `search` returns has non-increasing `relevance_score`. -/
theorem c2_distance_relevance :
    (∀ d : ℚ,
      (d < 0.4 → distanceToScore d = 10) ∧
      (0.4 ≤ d → d < 0.6 → distanceToScore d = 8) ∧
      (0.6 ≤ d → d < 0.8 → distanceToScore d = 6) ∧
      (0.8 ≤ d → d < 1.0 → distanceToScore d = 4) ∧
      (1.0 ≤ d → distanceToScore d = 2)) ∧
    (∀ d : ℚ, distanceToScore d ∈ [10, 8, 6, 4, 2]) ∧
    (∀ d₁ d₂ : ℚ, d₁ ≤ d₂ → distanceToScore d₂ ≤ distanceToScore d₁) ∧
    (∀ embed collQuery query n filters userId out,
      (∀ v k w rs, collQuery v k w = Except.ok rs →
        rs.Pairwise (fun a b : StoredRec => a.dist ≤ b.dist)) →
      search embed collQuery query n filters userId = Except.ok out →
      out.Pairwise (fun a b : SearchResult => b.relevance_score ≤ a.relevance_score)) := by
  refine ⟨?_, ?_, distanceToScore_antitone, ?_⟩
  · intro d
    refine ⟨fun h1 => ?_, fun h1 h2 => ?_, fun h1 h2 => ?_, fun h1 h2 => ?_, fun h1 => ?_⟩ <;>
      · unfold distanceToScore
        split_ifs <;> first | rfl | linarith
  · intro d
    unfold distanceToScore
    split_ifs <;> simp
  · intro embed collQuery query n filters userId out hsorted hok
    cases hembed : embed query with
    | error e => simp [search, hembed] at hok
    | ok v =>
      cases hq : collQuery v n (whereArg filters userId) with
      | error e =>
        simp [search, hembed, hq] at hok
        subst hok
        exact List.Pairwise.nil
      | ok rs =>
        simp [search, hembed, hq] at hok
        subst hok
        have hrs := hsorted v n (whereArg filters userId) rs hq
        unfold formatResults
        rw [List.pairwise_map]
        exact hrs.imp (fun hab => distanceToScore_antitone _ _ hab)

theorem c2_distance_relevance_witness :
    distanceToScore 0.5 = 8 ∧
      (formatResults [⟨"a", "ta", 0.3, []⟩, ⟨"b", "tb", 0.7, []⟩]).Pairwise
        (fun a b : SearchResult => b.relevance_score ≤ a.relevance_score) := by
  refine ⟨(c2_distance_relevance.1 (0.5 : ℚ)).2.1 (by norm_num) (by norm_num), ?_⟩
  refine c2_distance_relevance.2.2.2 (fun _ => Except.ok [])
    (fun _ _ _ => Except.ok [⟨"a", "ta", 0.3, []⟩, ⟨"b", "tb", 0.7, []⟩])
    "q" 2 none none _ ?_ rfl
  intro v k w rs h
  have := Except.ok.inj h
  subst this
  norm_num [List.pairwise_cons]

/-! ## C3: user-scoped search is strictly additive -/

theorem dictSet_self_mem {β : Type} (d : List (String × β)) (k : String) (v : β) :
    (k, v) ∈ dictSet d k v := by
  unfold dictSet
  by_cases h : d.any (fun kv => kv.1 == k)
  · rw [if_pos h]
    rcases List.any_eq_true.1 h with ⟨kv, hkv, hk⟩
    refine List.mem_map.2 ⟨kv, hkv, ?_⟩
    simp only [beq_iff_eq] at hk
    simp [hk]
  · rw [if_neg h]
    simp

theorem dictSet_other_mem {β : Type} (d : List (String × β)) (k : String) (v : β)
    (x : String × β) (h : x ∈ d) (hne : x.1 ≠ k) : x ∈ dictSet d k v := by
  unfold dictSet
  by_cases ha : d.any (fun kv => kv.1 == k)
  · rw [if_pos ha]
    refine List.mem_map.2 ⟨x, h, ?_⟩
    simp [hne]
  · rw [if_neg ha]
    exact List.mem_append_left _ h

theorem buildWhere_truthy (filters : List (String × String)) (uid : String)
    (huid : uid ≠ "") :
    buildWhere (some filters) (some uid) = dictSet filters "uploaded_by" uid := by
  simp [buildWhere, truthyStr, huid]

theorem matchesWhere_lookup (w : List (String × String)) (r : StoredRec)
    (hm : matchesWhere w r = true) (k v : String) (hkv : (k, v) ∈ w) :
    r.meta.lookup k = some v := by
  unfold matchesWhere at hm
  simpa using List.all_eq_true.1 hm _ hkv

/-- C3: with a truthy `user_id`, `search` merges `uploaded_by = user_id`
into a copy of the caller's filters without removing any caller-supplied
key, and — given the store's AND-equality filter contract — every returned
record has `uploaded_by` metadata equal to `user_id`. -/
theorem c3_user_scoped_search (filters : List (String × String)) (uid : String)
    (huid : uid ≠ "") :
    (∀ x ∈ filters, x.1 ≠ "uploaded_by" → x ∈ buildWhere (some filters) (some uid)) ∧
    ("uploaded_by", uid) ∈ buildWhere (some filters) (some uid) ∧
    (∀ embed collQuery query n out,
      (∀ v k w rs, collQuery v k (some w) = Except.ok rs →
        ∀ r ∈ rs, matchesWhere w r = true) →
      search embed collQuery query n (some filters) (some uid) = Except.ok out →
      ∀ r ∈ out, r.meta.lookup "uploaded_by" = some uid) := by
  have hw : ("uploaded_by", uid) ∈ buildWhere (some filters) (some uid) := by
    rw [buildWhere_truthy filters uid huid]
    exact dictSet_self_mem filters "uploaded_by" uid
  refine ⟨?_, hw, ?_⟩
  · intro x hx hne
    rw [buildWhere_truthy filters uid huid]
    exact dictSet_other_mem filters "uploaded_by" uid x hx hne
  · intro embed collQuery query n out hstore hok r hr
    have hne : ¬ (buildWhere (some filters) (some uid)).isEmpty := by
      cases hbw : buildWhere (some filters) (some uid) with
      | nil => rw [hbw] at hw; exact absurd hw (by simp)
      | cons a t => simp
    have hwa : whereArg (some filters) (some uid) =
        some (buildWhere (some filters) (some uid)) := by
      unfold whereArg
      rw [if_neg hne]
    cases hembed : embed query with
    | error e => simp [search, hembed] at hok
    | ok v =>
      cases hq : collQuery v n (whereArg (some filters) (some uid)) with
      | error e =>
        simp [search, hembed, hq] at hok
        subst hok
        exact absurd hr (by simp)
      | ok rs =>
        simp [search, hembed, hq] at hok
        subst hok
        rcases List.mem_map.1 hr with ⟨s, hs, hfmt⟩
        have hmw : matchesWhere (buildWhere (some filters) (some uid)) s = true := by
          refine hstore v n (buildWhere (some filters) (some uid)) rs ?_ s hs
          rw [← hwa]; exact hq
        have := matchesWhere_lookup _ s hmw "uploaded_by" uid hw
        rw [← hfmt]
        exact this

theorem c3_user_scoped_search_witness :
    ("uploaded_by", "alice") ∈
      buildWhere (some [("specialty", "cardiologia")]) (some "alice") ∧
    (⟨"d_chunk_0000", "alpha", 0.3,
        [("uploaded_by", "alice"), ("specialty", "cardiologia")],
        distanceToScore 0.3⟩ : SearchResult).meta.lookup "uploaded_by" =
      some "alice" := by
  have h := c3_user_scoped_search [("specialty", "cardiologia")] "alice" (by decide)
  refine ⟨h.2.1, ?_⟩
  refine h.2.2 (fun _ => Except.ok [(0.1 : ℚ)]) storeW "q" 5
    [⟨"d_chunk_0000", "alpha", 0.3,
      [("uploaded_by", "alice"), ("specialty", "cardiologia")],
      distanceToScore 0.3⟩] ?_ ?_ _ ?_
  · intro v k w rs hrs r hr
    simp only [storeW] at hrs
    have := Except.ok.inj hrs
    subst this
    exact (List.mem_filter.1 hr).2
  · rfl
  · exact List.mem_singleton.2 rfl

/-! ## C4: exception handling inside search (corrected) -/

/-- C4 counterexample: an exception raised by the embedding step
(rag_system.py line 130, outside the try block) propagates out of `search`
instead of being caught and turned into an empty list. -/
theorem c4_embed_error_escapes :
    search (fun _ => Except.error "model failure") storeW "q" 5 none none =
      Except.error "model failure" ∧
    search (fun _ => Except.error "model failure") storeW "q" 5 none none ≠
      Except.ok [] := by
  constructor
  · rfl
  · simp [search]

/-- C4 amended: only a store-query failure is caught inside `search` and
turned into the empty list; an embedding-step failure propagates to the
caller unchanged. -/
theorem c4_search_error_handling :
    (∀ embed collQuery query n filters userId v e,
      embed query = Except.ok v →
      collQuery v n (whereArg filters userId) = Except.error e →
      search embed collQuery query n filters userId = Except.ok []) ∧
    (∀ embed collQuery query n filters userId e,
      embed query = Except.error e →
      search embed collQuery query n filters userId = Except.error e) := by
  constructor
  · intro embed collQuery query n filters userId v e h1 h2
    simp [search, h1, h2]
  · intro embed collQuery query n filters userId e h1
    simp [search, h1]

theorem c4_search_error_handling_witness :
    search (fun _ => Except.ok [(0.1 : ℚ)]) (fun _ _ _ => Except.error "down")
      "q" 5 none none = Except.ok [] ∧
    search (fun _ => Except.error "boom") storeW "q" 5 none none =
      Except.error "boom" :=
  ⟨c4_search_error_handling.1 _ _ "q" 5 none none [(0.1 : ℚ)] "down" rfl rfl,
   c4_search_error_handling.2 _ storeW "q" 5 none none "boom" rfl⟩

/-! ## C10: empty-string user_id is treated like None -/

/-- C10: `search` with `user_id = ""` adds no `uploaded_by` constraint —
the Python truthiness test treats the empty string like `None`, so the
search behaves exactly like an unscoped search. -/
theorem c10_empty_user_id_unscoped (embed : String → Except String (List ℚ))
    (collQuery : List ℚ → Nat → Option (List (String × String)) →
      Except String (List StoredRec))
    (query : String) (n : Nat) (filters : Option (List (String × String))) :
    search embed collQuery query n filters (some "") =
      search embed collQuery query n filters none ∧
    buildWhere filters (some "") = buildWhere filters none := by
  constructor
  · simp [search, whereArg, buildWhere, truthyStr]
  · simp [buildWhere, truthyStr]

/-! ## C6 theorems: running section label (corrected) -/

/-- C6 counterexample: the paragraph "Heading" is short and does not end
in a period, so per the claim it should become the section label of every
later chunk; in the run below it is absorbed into the current buffer, the
label is never updated, and both emitted chunks keep the initial label. -/
theorem c6_label_counterexample :
    (splitBySections tok10 ex6text 1).map Chunk.sect = [ex6para1, ex6para1] ∧
    claimedRunningLabel 1 (paragraphsOf ex6text) = "Heading" ∧
    "Heading" ∈ paragraphsOf ex6text ∧
    ex6para1 ≠ "Heading" := by decide

theorem initialSection_ok (pageNum : Nat) (P : List String) :
    SectOk pageNum P (initialSection pageNum P) := by
  cases P with
  | nil => exact Or.inl rfl
  | cons q t =>
    by_cases h : q.length < 100
    · exact Or.inr ⟨q, by simp, h, by simp [initialSection, h]⟩
    · exact Or.inl (by simp [initialSection, h])

theorem splitStep_sectOk (tok : String → Nat) (p : Nat) (P : List String)
    (s : SplitState) (a : String) (ha : a ∈ P)
    (h1 : ∀ c ∈ s.chunks, SectOk p P c.sect) (h2 : SectOk p P s.curSect) :
    (∀ c ∈ (splitStep tok p s a).chunks, SectOk p P c.sect) ∧
      SectOk p P (splitStep tok p s a).curSect := by
  unfold splitStep
  by_cases ht : tok (testChunk s.cur a) < 600
  · rw [if_pos ht]
    exact ⟨h1, h2⟩
  · rw [if_neg ht]
    constructor
    · intro c hc
      by_cases hcur : s.cur == ""
      · simp only [hcur, if_true] at hc
        exact h1 c hc
      · simp only [hcur, Bool.false_eq_true, if_false] at hc
        rcases List.mem_append.1 hc with h | h
        · exact h1 c h
        · have : c = ⟨pyStrip s.cur, p, s.curSect, none, tok s.cur⟩ := by simpa using h
          subst this
          exact h2
    · by_cases hsh : (a.length < 100 && !(pyEndsWith a ".")) = true
      · simp only [hsh, if_true]
        have hand := hsh
        rw [Bool.and_eq_true] at hand
        exact Or.inr ⟨a, ha, of_decide_eq_true hand.1, rfl⟩
      · have hshb : (a.length < 100 && !(pyEndsWith a ".")) = false :=
          Bool.eq_false_iff.2 hsh
        simp only [hshb, Bool.false_eq_true, if_false]
        exact h2

/-- C6 amended: the running section label starts as the page label (or a
short first paragraph truncated to 100 chars), a paragraph that still fits
in the current buffer never changes it, and it is overwritten — by the
paragraph truncated to 100 chars — exactly when a paragraph that fails to
fit is short and does not end in a period; consequently every chunk's
label is the page label or the truncation of some short paragraph. -/
theorem c6_section_label_discipline (tok : String → Nat) (text : String) (p : Nat) :
    (∀ st para, tok (testChunk st.cur para) < 600 →
      (splitStep tok p st para).curSect = st.curSect) ∧
    (∀ st para, ¬ tok (testChunk st.cur para) < 600 →
      (splitStep tok p st para).curSect =
        (if para.length < 100 && !(pyEndsWith para ".") then pyTake para 100
         else st.curSect)) ∧
    (∀ c ∈ splitBySections tok text p,
      c.sect = "Página " ++ toString p ∨
        ∃ q ∈ paragraphsOf text, q.length < 100 ∧ c.sect = pyTake q 100) := by
  refine ⟨?_, ?_, ?_⟩
  · intro st para h
    simp [splitStep, h]
  · intro st para h
    simp [splitStep, h]
  · intro c hc
    unfold splitBySections at hc
    by_cases h : tok text < 600
    · rw [if_pos h] at hc
      have : c = ⟨text, p, "Página " ++ toString p, none, tok text⟩ := by simpa using hc
      subst this
      exact Or.inl rfl
    · rw [if_neg h] at hc
      have inv := foldl_inv (splitStep tok p) (paragraphsOf text)
        (fun st => (∀ c ∈ st.chunks, SectOk p (paragraphsOf text) c.sect) ∧
          SectOk p (paragraphsOf text) st.curSect)
        ⟨[], "", initialSection p (paragraphsOf text)⟩
        (fun s a ha hs => splitStep_sectOk tok p (paragraphsOf text) s a ha hs.1 hs.2)
        ⟨by simp, initialSection_ok p (paragraphsOf text)⟩
      set final := (paragraphsOf text).foldl (splitStep tok p)
        ⟨[], "", initialSection p (paragraphsOf text)⟩ with hfinal
      unfold finishSplit at hc
      by_cases hcur : final.cur = ""
      · rw [if_pos (by simpa using hcur)] at hc
        exact inv.1 c hc
      · rw [if_neg (by simpa using hcur)] at hc
        rcases List.mem_append.1 hc with hmem | hmem
        · exact inv.1 c hmem
        · have : c = ⟨pyStrip final.cur, p, final.curSect, none, tok final.cur⟩ := by
            simpa using hmem
          subst this
          exact inv.2

theorem c6_section_label_discipline_witness :
    (splitStep tok10 1 ⟨[], "", "S"⟩ "hi").curSect = "S" ∧
    ((⟨"hola", 2, "Página 2", none, 4⟩ : Chunk).sect = "Página " ++ toString 2 ∨
      ∃ q ∈ paragraphsOf "hola", q.length < 100 ∧
        (⟨"hola", 2, "Página 2", none, 4⟩ : Chunk).sect = pyTake q 100) :=
  ⟨(c6_section_label_discipline tok10 "x" 1).1 ⟨[], "", "S"⟩ "hi" (by decide),
   (c6_section_label_discipline String.length "hola" 2).2.2 _ (by decide)⟩

/-! ## C7 theorems: add_document record construction -/

theorem digitChar_toNat : ∀ d, d < 10 → (Nat.digitChar d).toNat - 48 = d := by decide

theorem decDigits_decode : ∀ fuel n, n ≤ fuel →
    (decDigits fuel n).foldr (fun c a => 10 * a + (c.toNat - 48)) 0 = n := by
  intro fuel
  induction fuel with
  | zero =>
    intro n hn
    have : n = 0 := Nat.le_zero.1 hn
    subst this
    rfl
  | succ fuel ih =>
    intro n hn
    match n with
    | 0 => rfl
    | m + 1 =>
      have hdiv : (m + 1) / 10 ≤ fuel := by
        have hlt : (m + 1) / 10 < m + 1 := Nat.div_lt_self (Nat.succ_pos m) (by omega)
        omega
      simp only [decDigits, List.foldr_cons]
      rw [ih ((m + 1) / 10) hdiv]
      have hd := digitChar_toNat ((m + 1) % 10) (Nat.mod_lt _ (by omega))
      omega

theorem decodeDec_natDecimal (n : Nat) : decodeDec (natDecimal n) = n := by
  unfold natDecimal
  by_cases h : n = 0
  · subst h
    rfl
  · rw [if_neg h]
    show ((decDigits n n).reverse).foldl _ 0 = n
    rw [List.foldl_reverse]
    exact decDigits_decode n n le_rfl

theorem foldl_zeros (k : Nat) :
    List.foldl (fun a c => 10 * a + (c.toNat - 48)) 0 (List.replicate k '0') = 0 := by
  induction k with
  | zero => rfl
  | succ k ihk =>
    rw [List.replicate_succ, List.foldl_cons]
    have h0 : (10 * 0 + (Char.toNat '0' - 48)) = 0 := rfl
    rw [h0]
    exact ihk

theorem decodeDec_fmt04 (i : Nat) : decodeDec (fmt04 i) = i := by
  unfold fmt04
  by_cases h : (natDecimal i).length < 4
  · rw [if_pos h]
    have : decodeDec (String.mk (List.replicate (4 - (natDecimal i).length) '0')
        ++ natDecimal i) =
        List.foldl (fun a c => 10 * a + (c.toNat - 48)) 0
          (List.replicate (4 - (natDecimal i).length) '0' ++ (natDecimal i).data) := rfl
    rw [this, List.foldl_append, foldl_zeros]
    exact decodeDec_natDecimal i
  · rw [if_neg h]
    exact decodeDec_natDecimal i

theorem fmt04_injective : Function.Injective fmt04 := by
  intro i j h
  have := congrArg decodeDec h
  rwa [decodeDec_fmt04, decodeDec_fmt04] at this

theorem batches_join_aux {α : Type} :
    ∀ (n : Nat) (l : List α), l.length ≤ n → (batches l).flatten = l := by
  intro n
  induction n with
  | zero =>
    intro l hl
    have : l = [] := List.eq_nil_of_length_eq_zero (Nat.le_zero.1 hl)
    subst this
    simp [batches]
  | succ n ih =>
    intro l hl
    cases l with
    | nil => simp [batches]
    | cons x xs =>
      rw [show batches (x :: xs) = (x :: xs).take 100 :: batches ((x :: xs).drop 100)
        from by rw [batches]]
      rw [List.flatten_cons,
        ih ((x :: xs).drop 100) (by simp only [List.length_drop] at *; omega)]
      exact List.take_append_drop 100 (x :: xs)

theorem batches_join {α : Type} (l : List α) : (batches l).flatten = l :=
  batches_join_aux l.length l le_rfl

theorem batches_length_le_aux {α : Type} :
    ∀ (n : Nat) (l : List α), l.length ≤ n → ∀ b ∈ batches l, b.length ≤ 100 := by
  intro n
  induction n with
  | zero =>
    intro l hl
    have : l = [] := List.eq_nil_of_length_eq_zero (Nat.le_zero.1 hl)
    subst this
    simp [batches]
  | succ n ih =>
    intro l hl
    cases l with
    | nil => simp [batches]
    | cons x xs =>
      rw [show batches (x :: xs) = (x :: xs).take 100 :: batches ((x :: xs).drop 100)
        from by rw [batches]]
      intro b hb
      rcases List.mem_cons.1 hb with h | h
      · subst h
        simp [List.length_take]
      · exact ih ((x :: xs).drop 100) (by simp only [List.length_drop] at *; omega) b h

theorem batches_length_le {α : Type} (l : List α) :
    ∀ b ∈ batches l, b.length ≤ 100 :=
  batches_length_le_aux l.length l le_rfl

/-- C7: `add_document` on N chunks prepares exactly N indexed records, all
carrying the returned `doc_id` in their metadata, with pairwise-distinct
record ids `doc_id ++ "_chunk_" ++ zero-padded index`, and the store write
loop partitions exactly those records into batches of at most 100. -/
theorem c7_add_document (chunks : List Chunk) (md : DocMeta)
    (uploadedBy nowStamp nowIso : String) :
    ((addDocument chunks md uploadedBy nowStamp nowIso).2).length = chunks.length ∧
    (∀ r ∈ (addDocument chunks md uploadedBy nowStamp nowIso).2,
      r.meta.doc_id = (addDocument chunks md uploadedBy nowStamp nowIso).1) ∧
    ((addDocument chunks md uploadedBy nowStamp nowIso).2.map IndexedRecord.id).Nodup ∧
    (batches (addDocument chunks md uploadedBy nowStamp nowIso).2).flatten =
      (addDocument chunks md uploadedBy nowStamp nowIso).2 ∧
    (∀ b ∈ batches (addDocument chunks md uploadedBy nowStamp nowIso).2,
      b.length ≤ 100) ∧
    (addDocument chunks md uploadedBy nowStamp nowIso).1 = mkDocId md nowStamp := by
  refine ⟨?_, ?_, ?_, batches_join _, batches_length_le _, rfl⟩
  · simp [addDocument, List.enum_length]
  · intro r hr
    simp only [addDocument, List.mem_map] at hr
    rcases hr with ⟨ic, _, rfl⟩
    rfl
  · have hmap : (addDocument chunks md uploadedBy nowStamp nowIso).2.map IndexedRecord.id =
        (chunks.enum.map Prod.fst).map
          (fun i => mkDocId md nowStamp ++ "_chunk_" ++ fmt04 i) := by
      simp only [addDocument, List.map_map]
      rfl
    rw [hmap]
    refine List.Nodup.map ?_ (List.nodup_enum_map_fst chunks)
    intro i j h
    apply fmt04_injective
    have hd : (mkDocId md nowStamp ++ "_chunk_").data ++ (fmt04 i).data =
        (mkDocId md nowStamp ++ "_chunk_").data ++ (fmt04 j).data :=
      congrArg String.data h
    exact String.ext (List.append_cancel_left hd)

theorem c7_add_document_witness :
    ((addDocument [⟨"uno", 1, "Página 1", none, 3⟩, ⟨"dos", 1, "Página 1", none, 3⟩]
        ⟨"Guía", none, none, none⟩ "ana" "20240101_000000" "iso").2).length =
      ([⟨"uno", 1, "Página 1", none, 3⟩, ⟨"dos", 1, "Página 1", none, 3⟩] :
        List Chunk).length ∧
    (chunkRecord "general_Guía_20240101_000000" ⟨"Guía", none, none, none⟩
        "ana" "iso" 0 ⟨"uno", 1, "Página 1", none, 3⟩).meta.doc_id =
      (addDocument [⟨"uno", 1, "Página 1", none, 3⟩, ⟨"dos", 1, "Página 1", none, 3⟩]
        ⟨"Guía", none, none, none⟩ "ana" "20240101_000000" "iso").1 := by
  have h := c7_add_document
    [⟨"uno", 1, "Página 1", none, 3⟩, ⟨"dos", 1, "Página 1", none, 3⟩]
    ⟨"Guía", none, none, none⟩ "ana" "20240101_000000" "iso"
  exact ⟨h.1, h.2.1 _ (by decide)⟩

/-! ## C8 theorems: collection statistics (corrected) -/

/-- C8 counterexample: on an empty collection, `get_collection_stats`
called with a user id returns the zero-count dict which still carries the
`by_user` key (as an empty dict), although the claim says `by_user` is
omitted whenever a `user_id` is supplied. -/
theorem c8_empty_includes_by_user :
    (getCollectionStats [] (some "Alice")).by_user = some [] ∧
    (getCollectionStats [] (some "Alice")).by_user ≠ none := by decide

/-- C8 amended: on a NON-EMPTY collection, stats scoped to a truthy
`user_id` report exactly the number of records whose `uploaded_by` equals
the user, the number of distinct `doc_id` values among those records, and
omit `by_user`; on the empty collection the early return yields the
zero dict that still includes `by_user = {}`. -/
theorem c8_collection_stats (coll : List StoredRec) (uid : String)
    (huid : uid ≠ "") (hne : coll ≠ []) :
    (getCollectionStats coll (some uid)).by_user = none ∧
    (getCollectionStats coll (some uid)).total_chunks =
      coll.countP (fun r => metaGet r.meta "uploaded_by" == some uid) ∧
    (getCollectionStats coll (some uid)).unique_docs =
      ((userMetadata coll uid).map
        (fun m => (metaGet m "doc_id").getD "unknown")).toFinset.card ∧
    getCollectionStats [] (some uid) = ⟨0, 0, some []⟩ := by
  have hlen : ¬ coll.length = 0 := by
    simpa [List.length_eq_zero] using hne
  have htru : truthyStr (some uid) = true := by
    simp [truthyStr, huid]
  refine ⟨?_, ?_, ?_, rfl⟩
  · simp [getCollectionStats, hlen, htru]
  · simp only [getCollectionStats, hlen, htru, if_false, if_true]
    show (userMetadata coll uid).length = _
    unfold userMetadata allMetadata
    rw [List.filter_map, List.length_map, List.countP_eq_length_filter]
    rfl
  · simp only [getCollectionStats, hlen, htru, if_false, if_true]
    show uniqueDocsOf (userMetadata coll uid) = _
    unfold uniqueDocsOf
    exact (List.card_toFinset _).symm

theorem c8_collection_stats_witness :
    (getCollectionStats collW (some "alice")).by_user = none ∧
    (getCollectionStats collW (some "alice")).total_chunks =
      collW.countP (fun r => metaGet r.meta "uploaded_by" == some "alice") := by
  have h := c8_collection_stats collW "alice" (by decide) (by decide)
  exact ⟨h.1, h.2.1⟩

/-! ## C9 theorems: PowerPoint slide extraction (corrected) -/

/-- C9 counterexample: a slide whose title placeholder "T" is among its
shapes; the code emits the slide text with the title duplicated
("T\n\nT\nB"), while under the claim wording the title shape would be
excluded from the content pass ("T\n\nB"). -/
theorem c9_title_duplicated :
    (extractFromPpt (fun s => s.length) [slide9]).map Chunk.text = ["T\n\nT\nB"] ∧
    claimedSlideText slide9 = "T\n\nB" ∧
    "T\n\nT\nB" ≠ "T\n\nB" := by decide

theorem mem_enumFrom_snd {α : Type} :
    ∀ (l : List α) (n : Nat) (p : Nat × α), p ∈ List.enumFrom n l → p.2 ∈ l := by
  intro l
  induction l with
  | nil => intro n p hp; simp at hp
  | cons x xs ih =>
    intro n p hp
    rcases List.mem_cons.1 hp with h | h
    · subst h
      exact List.mem_cons_self _ _
    · exact List.mem_cons_of_mem _ (ih (n + 1) p h)

theorem extractFromPptLoop_eq (tok : String → Nat) :
    ∀ (slides : List PSlide) (n : Nat),
      extractFromPptLoop tok n slides =
        (List.enumFrom n slides).filterMap (fun is =>
          if pyStrip (slideFullText is.2) == "" then none
          else some (mkSlideChunk tok is.1 is.2)) := by
  intro slides
  induction slides with
  | nil => intro n; rfl
  | cons s rest ih =>
    intro n
    show _ = List.filterMap _ ((n, s) :: List.enumFrom (n + 1) rest)
    rw [List.filterMap_cons]
    by_cases h : pyStrip (slideFullText s) == ""
    · simp only [extractFromPptLoop, h, if_true]
      exact ih (n + 1)
    · simp only [extractFromPptLoop, h, Bool.false_eq_true, if_false]
      rw [ih (n + 1)]

theorem extractFromPptLoop_length (tok : String → Nat) :
    ∀ (slides : List PSlide) (n : Nat),
      (extractFromPptLoop tok n slides).length =
        (slides.filter (fun s => !(pyStrip (slideFullText s) == ""))).length := by
  intro slides
  induction slides with
  | nil => intro n; rfl
  | cons s rest ih =>
    intro n
    by_cases h : pyStrip (slideFullText s) == "" <;>
      simp [extractFromPptLoop, List.filter_cons, h, ih (n + 1)]

/-- C9 amended: `extract_from_ppt` emits exactly one chunk per slide whose
combined text is non-empty after normalization, in order, numbered from 1;
each chunk's text is the cleaned concatenation of the slide title with the
text of ALL shapes exposing text (the title placeholder included, hence
duplicated), its section label is the slide title or `"Slide N"` when the
title is empty, and its token count is that of its text. -/
theorem c9_ppt_extraction (tok : String → Nat) (slides : List PSlide) :
    extractFromPpt tok slides =
      (List.enumFrom 1 slides).filterMap (fun is =>
        if pyStrip (slideFullText is.2) == "" then none
        else some (mkSlideChunk tok is.1 is.2)) ∧
    (∀ c ∈ extractFromPpt tok slides, ∃ s ∈ slides,
      c.text = slideFullText s ∧
      c.sect = (if slideTitleText s == "" then "Slide " ++ toString c.page
                else slideTitleText s) ∧
      c.ctype = some "slide" ∧ c.tokens = tok (slideFullText s)) ∧
    (extractFromPpt tok slides).length =
      (slides.filter (fun s => !(pyStrip (slideFullText s) == ""))).length := by
  refine ⟨extractFromPptLoop_eq tok slides 1, ?_, extractFromPptLoop_length tok slides 1⟩
  intro c hc
  rw [extractFromPpt, extractFromPptLoop_eq tok slides 1] at hc
  rcases List.mem_filterMap.1 hc with ⟨is, hmem, hsome⟩
  by_cases h : pyStrip (slideFullText is.2) == ""
  · rw [if_pos h] at hsome
    exact absurd hsome (by simp)
  · rw [if_neg h] at hsome
    have hc2 : c = mkSlideChunk tok is.1 is.2 := by
      exact (Option.some.inj hsome).symm
    subst hc2
    exact ⟨is.2, mem_enumFrom_snd slides 1 is hmem, rfl, rfl, rfl, rfl⟩

theorem c9_ppt_extraction_witness :
    ∃ s ∈ [slide9],
      (mkSlideChunk String.length 1 slide9).text = slideFullText s ∧
      (mkSlideChunk String.length 1 slide9).sect =
        (if slideTitleText s == "" then
          "Slide " ++ toString (mkSlideChunk String.length 1 slide9).page
         else slideTitleText s) ∧
      (mkSlideChunk String.length 1 slide9).ctype = some "slide" ∧
      (mkSlideChunk String.length 1 slide9).tokens =
        String.length (slideFullText s) :=
  (c9_ppt_extraction String.length [slide9]).2.1 _ (by decide)
